import Mathlib

/-!
A shallow embedding of the verification pipeline of `safeget.py` (a
single-file secure-download-and-verify tool) together with proofs about its
behaviour.

Conventions of the embedding:

* Python functions become Lean functions.  Functions that can `raise` return
  `Except PyErr _`; `fail(msg)` (which raises `SafegetException`) becomes
  `.error (.safegetFail msg)`.
* The module-level mutable `target_host` becomes an explicit `SGState`
  value threaded through the functions that read or write it.
* File contents are modelled as `List Char`; the file system, the network,
  the `re` regex engine, the `hashlib` digests and the external `gpg`
  process are modelled as oracle fields of an `Env` record (they are
  external capabilities from the point of view of the pipeline).
* Temporary files created by `get_temp_filename()` are identified with the
  source they were downloaded from: reading the temp file written by
  `download(url, path)` yields `readfile url`.
-/

/-- Errors a run can raise: `SafegetException` raised by `fail()`, plus the
Python exceptions that escape uncaught (`ValueError`, `NameError`,
`AssertionError`, `UnicodeDecodeError`, `subprocess.CalledProcessError`). -/
inductive PyErr where
  | safegetFail (msg : String)
  | valueError (msg : String)
  | nameError (name : String)
  | assertionError
  | unicodeDecodeError
  | procError
  deriving DecidableEq, Repr

deriving instance DecidableEq for Except

/-- The module-level mutable state: the global `target_host` variable. -/
structure SGState where
  target_host : Option String
  deriving DecidableEq, Repr

/-- The argparse result `args`, with the fields the verification pipeline
reads.  `nargs='*'` options are lists (absent = empty list, which is falsy
in Python exactly like `None`); `--size` is an optional string; `--tries`
defaults to 20; `--overwrite_ok` uses `action='store_false'`, so its
default is `true`. -/
structure Args where
  target : String
  size : Option String := none
  hash : List String := []
  pubkey : List String := []
  sig : List String := []
  signedmsg : List String := []
  signedhash : List String := []
  tries : Nat := 20
  onehost : Bool := false
  debug : Bool := false
  overwrite_ok : Bool := true
  deriving DecidableEq, Repr

/-! ### List-of-characters utilities (Python `str` operations) -/

/-- Python's `needle in haystack` on strings: `p` occurs as a contiguous
substring of `xs`. -/
def containsSeq (p : List Char) : List Char → Bool
  | [] => p.isEmpty
  | x :: t => p.isPrefixOf (x :: t) || containsSeq p t

/-- Python's `str.lower()` (charwise, as the pipeline only meets ASCII). -/
def pyLower (s : String) : String :=
  String.mk (s.data.map Char.toLower)

/-- Python's `str.split(sep)`: split on every occurrence of `sep`,
keeping empty pieces. -/
def splitChar (sep : Char) : List Char → List (List Char)
  | [] => [[]]
  | x :: t =>
    match splitChar sep t with
    | [] => [[]]
    | y :: ys => if x = sep then [] :: y :: ys else (x :: y) :: ys

/-- Characters allowed in a URL scheme after the leading letter. -/
def validSchemeChar (c : Char) : Bool :=
  c.isAlphanum || c = '+' || c = '-' || c = '.'

/-- `urlparse`'s scheme split: if the text before the first `:` is a valid
scheme (nonempty, leading letter, scheme characters), return it lowercased
together with the rest after the colon; otherwise no scheme.  -/
def splitScheme (xs : List Char) : List Char × List Char :=
  let before := xs.takeWhile (fun c => c ≠ ':')
  let rest := xs.dropWhile (fun c => c ≠ ':')
  match rest with
  | ':' :: r =>
    match before with
    | [] => ([], xs)
    | c :: cs =>
      if c.isAlpha ∧ (c :: cs).all validSchemeChar then ((c :: cs).map Char.toLower, r)
      else ([], xs)
  | _ => ([], xs)

/-- `urlparse(url).scheme`. -/
def schemeOf (url : String) : String :=
  String.mk (splitScheme url.data).1

/-- `urlparse(url).netloc`: after the scheme, if the remainder starts with
`//` the netloc runs up to the next `/`, `?` or `#`. -/
def netlocOf (url : String) : List Char :=
  let rest := (splitScheme url.data).2
  if ['/', '/'].isPrefixOf rest then
    (rest.drop 2).takeWhile (fun c => !(c == '/' || c == '?' || c == '#'))
  else []

/-- `is_url`: Python `'://' in s`. -/
def is_url (s : String) : Bool :=
  containsSeq [':', '/', '/'] s.data

/-- `parse_host`: return the host of a url.  `netloc.split(':')` is unpacked
into exactly two variables, so a netloc with two or more colons raises an
uncaught `ValueError` (too many values to unpack). -/
def parse_host (url : String) : Except PyErr String :=
  let netloc := netlocOf url
  if netloc.contains ':' then
    match splitChar ':' netloc with
    | [h, _] => .ok (String.mk h)
    | _ => .error (.valueError "too many values to unpack")
  else .ok (String.mk netloc)

def SAFE_PROTOCOLS : List String := ["https", "sftp", "file"]

/-- The warning printed by `warn()` for a same-host auxiliary source. -/
def sameHostWarning (source : String) : String :=
  "url is same host as target: " ++ source ++ ". Use --onehost to skip this warning."

/-- Result of a `verify_source` call: the raised-or-returned outcome, the
new value of the global `target_host`, and the warnings printed. -/
structure VSout where
  res : Except PyErr Unit
  st : SGState
  warnings : List String
  deriving DecidableEq, Repr

/-- `verify_source`: urls must use a safe protocol; the first validated
source is assumed to be the target and establishes `target_host`; a
non-target url on the target's host is a warning unless `--onehost`.
Local files are trusted; if they are validated first, `target_host` is set
to the raw `args.target` string. -/
def verify_source (a : Args) (st : SGState) (source : String) : VSout :=
  if is_url source then
    if schemeOf source ∉ SAFE_PROTOCOLS then
      ⟨.error (.safegetFail
        ("url does not use a safe protocol (https or sftp or file): " ++ source)), st, []⟩
    else
      match parse_host source with
      | .error e => ⟨.error e, st, []⟩
      | .ok host =>
        if st.target_host = none then
          if source ≠ a.target then
            ⟨.error (.safegetFail "safeget error: target source must be verified first"), st, []⟩
          else
            -- `target_host = host`; the warning test below is vacuous since
            -- `source == args.target` here.
            ⟨.ok (), ⟨some host⟩, []⟩
        else
          if ¬ a.onehost ∧ source ≠ a.target ∧ st.target_host = some host then
            ⟨.ok (), st, [sameHostWarning source]⟩
          else
            ⟨.ok (), st, []⟩
  else
    if st.target_host = none then ⟨.ok (), ⟨some a.target⟩, []⟩
    else ⟨.ok (), st, []⟩

/-- `verify_args`: the pre-flight configuration checks, ending with
`verify_source(args.target)`.  No fetching happens here. -/
def verify_args (a : Args) (st : SGState) : Except PyErr Unit × SGState :=
  if a.sig = [] ∧ a.signedhash = [] ∧ a.hash = [] then
    (.error (.safegetFail "File signature, signed hash, or explicit hash required"), st)
  else if (a.size ≠ none ∧ a.size ≠ some "") ∧ a.sig = [] ∧ a.signedhash = [] ∧ a.hash = [] then
    (.error (.safegetFail
      ("File size alone is not enough verification. " ++
        "File signature, signed hash, or explicit hash required.")), st)
  else if a.sig ≠ [] ∧ a.pubkey = [] then
    (.error (.safegetFail "Detached signature found, but required PGP public key not found."), st)
  else if a.signedhash ≠ [] ∧ a.pubkey = [] then
    (.error (.safegetFail "Signed hash found, but required PGP public key not found."), st)
  else if a.pubkey ≠ [] ∧ a.sig = [] ∧ a.signedmsg = [] ∧ a.signedhash = [] then
    (.error (.safegetFail
      ("PGP public key found, but you also need to include a file signature (--sig), " ++
        "or signed message (--signedmsg), or signed hash (--signedhash)")), st)
  else
    let o := verify_source a st a.target
    (o.res, o.st)

/-! ### `clean_gpg_data`: armor-artifact normalization -/

/-- `text.replace('^/s*', '')` (the pattern is a literal string here). -/
def stripCaretSeq : List Char → List Char
  | '^' :: '/' :: 's' :: '*' :: t => stripCaretSeq t
  | x :: t => x :: stripCaretSeq t
  | [] => []

/-- `text.replace('\\n', '\n')`. -/
def unescapeNewlines : List Char → List Char
  | '\\' :: 'n' :: t => '\n' :: unescapeNewlines t
  | x :: t => x :: unescapeNewlines t
  | [] => []

/-- `text.replace('\\r', '')`. -/
def stripEscapedCR : List Char → List Char
  | '\\' :: 'r' :: t => stripEscapedCR t
  | x :: t => x :: stripEscapedCR t
  | [] => []

/-- `text.replace('<p>', '\n')`. -/
def pOpenToNewline : List Char → List Char
  | '<' :: 'p' :: '>' :: t => '\n' :: pOpenToNewline t
  | x :: t => x :: pOpenToNewline t
  | [] => []

/-- `text.replace('</p>', '\n')`. -/
def pCloseToNewline : List Char → List Char
  | '<' :: '/' :: 'p' :: '>' :: t => '\n' :: pCloseToNewline t
  | x :: t => x :: pCloseToNewline t
  | [] => []

/-- `text.replace('<br>', '\n')`. -/
def brToNewline : List Char → List Char
  | '<' :: 'b' :: 'r' :: '>' :: t => '\n' :: brToNewline t
  | x :: t => x :: brToNewline t
  | [] => []

/-- `text.replace('<br/>', '\n')`. -/
def brSlashToNewline : List Char → List Char
  | '<' :: 'b' :: 'r' :: '/' :: '>' :: t => '\n' :: brSlashToNewline t
  | x :: t => x :: brSlashToNewline t
  | [] => []

/-- The full normalization chain of `clean_gpg_data`, in source order. -/
def cleanChars (xs : List Char) : List Char :=
  brSlashToNewline (brToNewline (pCloseToNewline (pOpenToNewline
    (stripEscapedCR (unescapeNewlines (stripCaretSeq xs))))))

/-- UTF-8 encoded size of a character (`os.path.getsize` counts bytes). -/
def csize (c : Char) : Nat :=
  if c.toNat < 128 then 1
  else if c.toNat < 2048 then 2
  else if c.toNat < 65536 then 3
  else 4

/-- Byte size of a file content. -/
def byteSizeModel (xs : List Char) : Nat :=
  (xs.map csize).sum

/-- `clean_gpg_data`: artifacts of at most 100 bytes are rejected (returns
`False`); larger ones are normalized, the `assert '\\n' not in text` is
checked, and the cleaned text is written back. -/
def clean_gpg_data (text : List Char) : Except PyErr (Bool × List Char) :=
  if 100 < byteSizeModel text then
    let t := cleanChars text
    if containsSeq ['\\', 'n'] t then .error .assertionError
    else .ok (true, t)
  else .ok (false, text)

/-! ### The environment: external capabilities used by the pipeline -/

/-- Oracles for everything outside the program: the parsed command line,
the file system, the network, the `re` engine, `hashlib`, and the external
`gpg` process.  `readfile s` is the decoded text of source `s` (`none`
models a `UnicodeDecodeError`); for URL sources it is the content that
`download` writes to the temp file.  `download_url u n` is the outcome of
the `n`-th `download_url(u, ...)` attempt: `(ok, reason)`. -/
structure Env where
  args : Args
  path_exists : String → Bool
  getsize : String → Nat
  readfile : String → Option (List Char)
  re_findall : String → List Char → List (List Char)
  hexdigest : String → String → String
  algorithms_available : List String
  gpg_import_ok : List Char → Bool
  gpg_verify_detached : List Char → String → Bool
  gpg_verify_signedmsg : List Char → Bool
  download_url : String → Nat → Bool × Option String
  answer : String → String
  testing : Bool
  abspath : String → String

/-- The fixed name standing for a `get_temp_filename()` result (fresh, so
it never exists beforehand; its content after `download(url, path)` is
`readfile url`). -/
def tempName : String := "safeget.tmp"

/-! ### Hashing -/

/-- `hash_algorithms()`: the available algorithms, lowercased. -/
def hash_algorithms (env : Env) : List String :=
  env.algorithms_available.map pyLower

/-- `hash_data`: hex digest of a file, lowercased (the per-run cache is
transparent for a pure model). -/
def hash_data (env : Env) (algo localpath : String) : String :=
  pyLower (env.hexdigest algo localpath)

/-- `search_for_hash`: the target's digest must occur as a raw substring of
the fetched content. -/
def search_for_hash (env : Env) (localpath algo : String) (url_content : List Char) : Bool :=
  containsSeq (hash_data env algo localpath).data url_content

/-- `compare_hashes`: plain string equality. -/
def compare_hashes (expected actual : String) : Bool :=
  expected == actual

/-- `parse_hash`: split `ALGO:hash-or-url` at the first colon; the
algorithm is lowercased; a non-URL hash value is lowercased and stripped of
space characters (`re.sub(' ', '')`). -/
def parse_hash (text : String) : Except PyErr (String × String) :=
  let xs := text.data
  let algoRaw := xs.takeWhile (fun c => c ≠ ':')
  let restRaw := xs.dropWhile (fun c => c ≠ ':')
  let hash_or_url : List Char :=
    match restRaw with
    | ':' :: r => r
    | _ => []
  let algo := algoRaw.map Char.toLower
  if algo = [] ∨ hash_or_url = [] ∨ ['/', '/'].isPrefixOf hash_or_url then
    .error (.safegetFail
      ("in hash expected \"ALGORITHM:...\" e.g. \"SHA512:D6E8...\" or \"SHA256:https://...\", got "
        ++ text))
  else
    let h2 :=
      if is_url (String.mk hash_or_url) then hash_or_url
      else (hash_or_url.map Char.toLower).filter (fun c => c ≠ ' ')
    .ok (String.mk algo, String.mk h2)

/-! ### Download with bounded retry -/

/-- `ok_to_write`: prompt before overwriting an existing non-empty path;
a declined prompt raises.  Returns the Python result plus whether the user
was prompted. -/
def ok_to_write (env : Env) (path : String) : Except PyErr Bool × Bool :=
  if env.path_exists path ∧ env.getsize path ≠ 0 ∧ env.testing = false then
    if pyLower (env.answer path) = "y" ∨ pyLower (env.answer path) = "yes" then
      (.ok true, true)
    else (.error (.safegetFail ("did not replace " ++ env.abspath path)), true)
  else (.ok true, false)

/-- The `while attempts < max_tries and not ok` retry loop of `download`,
with `fuel` the remaining tries.  Returns `(attempts, ok, reason)`. -/
def downloadAttempts (attempt : Nat → Bool × Option String) :
    Nat → Nat → Option String → Nat × Bool × Option String
  | 0, attempts, reason => (attempts, false, reason)
  | fuel + 1, attempts, _ =>
    let r := attempt attempts
    if r.1 then (attempts + 1, true, r.2)
    else downloadAttempts attempt fuel (attempts + 1) r.2

/-- `str(reason)` for the urllib failure reason. -/
def pyStr : Option String → String
  | none => "None"
  | some s => s

/-- The `re.match('^\\[Errno \\d+\\] (.*)$', reason)` rewrite in
`get_details_for_failure`: an `[Errno N] rest` reason becomes
`Error: rest` (with `$` allowing one trailing newline and `.*` refusing
embedded newlines). -/
def errnoRewrite (s : String) : String :=
  let xs := s.data
  let core := if xs.getLast? = some '\n' then xs.dropLast else xs
  if ("[Errno ".data).isPrefixOf core then
    let t := core.drop 7
    let ds := t.takeWhile Char.isDigit
    let rest := t.drop ds.length
    if ds ≠ [] then
      match rest with
      | ']' :: ' ' :: body => if body.contains '\n' then s else "Error: " ++ String.mk body
      | _ => s
    else s
  else s

/-- `get_details_for_failure`: the failure message contains the url, the
(possibly rewritten) last reason and a remediation suggestion; the attempt
count is only printed on a debug line, not included in the details. -/
def get_details_for_failure (url : String) (attempts : Nat) (reason : Option String) : String :=
  let reason2 := errnoRewrite (pyStr reason)
  let _ := attempts
  "Unable to safely get " ++ url ++ ".\n\t" ++ reason2 ++
    "\n\tSuggestions: Check connections or try again later."

/-- `download`: overwrite policy, source trust check, then up to
`args.tries` attempts; on exhaustion fail with the structured details. -/
def download (env : Env) (st : SGState) (url localpath : String) : Except PyErr Unit × SGState :=
  let body : Except PyErr Unit × SGState :=
    let vs := verify_source env.args st url
    match vs.res with
    | .error e => (.error e, vs.st)
    | .ok _ =>
      let r := downloadAttempts (env.download_url url) env.args.tries 0 none
      if r.2.1 then (.ok (), vs.st)
      else (.error (.safegetFail (get_details_for_failure url r.1 r.2.2)), vs.st)
  if env.args.overwrite_ok then body
  else
    match (ok_to_write env localpath).1 with
    | .error e => (.error e, st)
    | .ok true => body
    | .ok false => (.ok (), st)

/-! ### Armor-block extraction: `save_patterns` -/

def PUBKEY_PATTERN : String :=
  "\\-+\\s*BEGIN PGP PUBLIC KEY BLOCK\\s*\\-+.*?\\-+\\s*END PGP PUBLIC KEY BLOCK\\s*\\-+\\s*"

def SIGNED_MESSAGE_PATTERN : String :=
  "\\-+\\s*BEGIN PGP SIGNED MESSAGE\\s*\\-+.*?\\-+\\s*END PGP SIGNATURE\\s*\\-+\\s*"

def SIG_PATTERN : String :=
  "\\-+\\s*BEGIN PGP SIGNATURE\\s*\\-+.*?\\-+\\s*END PGP SIGNATURE\\s*\\-+\\s*"

/-- The per-source loop of `save_patterns`: URL sources are trust-checked
and downloaded; local sources must exist; a source that fails to decode as
text is skipped (`UnicodeDecodeError` is swallowed); a source with no
pattern matches is fatal.  Matches accumulate across sources. -/
def save_patterns_loop (env : Env) (pattern : String) :
    List String → SGState → List (List Char) → Except PyErr (List (List Char)) × SGState
  | [], st, acc => (.ok acc, st)
  | source :: rest, st, acc =>
    if is_url source then
      let vs := verify_source env.args st source
      match vs.res with
      | .error e => (.error e, vs.st)
      | .ok _ =>
        match download env vs.st source tempName with
        | (.error e, st') => (.error e, st')
        | (.ok _, st') =>
          match env.readfile source with
          | none => save_patterns_loop env pattern rest st' acc
          | some content =>
            let ms := env.re_findall pattern content
            if ms = [] then
              (.error (.safegetFail ("no \"" ++ pattern ++ "\" patterns found: " ++ source)), st')
            else save_patterns_loop env pattern rest st' (acc ++ ms)
    else
      if env.path_exists source = false then
        (.error (.safegetFail ("file not found: " ++ source)), st)
      else
        match env.readfile source with
        | none => save_patterns_loop env pattern rest st acc
        | some content =>
          let ms := env.re_findall pattern content
          if ms = [] then
            (.error (.safegetFail ("no \"" ++ pattern ++ "\" patterns found: " ++ source)), st)
          else save_patterns_loop env pattern rest st (acc ++ ms)

/-- `save_patterns` (the online-paths bookkeeping used only for deletion is
dropped). -/
def save_patterns (env : Env) (st : SGState) (pattern : String) (sources : List String) :
    Except PyErr (List (List Char)) × SGState :=
  save_patterns_loop env pattern sources st []

/-! ### Verification tiers -/

/-- The per-key loop of `get_pubkeys`: clean, then `gpg --import`; a
failed import propagates as `CalledProcessError`. -/
def get_pubkeys_loop (env : Env) : List (List Char) → Except PyErr Unit
  | [] => .ok ()
  | c :: rest =>
    match clean_gpg_data c with
    | .error e => .error e
    | .ok (true, cleaned) =>
      if env.gpg_import_ok cleaned then get_pubkeys_loop env rest
      else .error .procError
    | .ok (false, _) => get_pubkeys_loop env rest

/-- `get_pubkeys`. -/
def get_pubkeys (env : Env) (st : SGState) : Except PyErr Unit × SGState :=
  if env.args.pubkey ≠ [] then
    match save_patterns env st PUBKEY_PATTERN env.args.pubkey with
    | (.error e, st') => (.error e, st')
    | (.ok paths, st') => (get_pubkeys_loop env paths, st')
  else (.ok (), st)

/-- The candidate loop of `verify_signatures`: each cleaned artifact is
handed to `gpg --verify`, but the outcome is swallowed (`except ...: debug`)
and never recorded. -/
def verify_signatures_loop (env : Env) (local_target : String) :
    List (List Char) → Except PyErr Unit
  | [] => .ok ()
  | c :: rest =>
    match clean_gpg_data c with
    | .error e => .error e
    | .ok (true, cleaned) =>
      let _ := env.gpg_verify_detached cleaned local_target
      verify_signatures_loop env local_target rest
    | .ok (false, _) => verify_signatures_loop env local_target rest

/-- `verify_signatures`: extract detached-signature candidates from every
`--sig` source and try each against the target. -/
def verify_signatures (env : Env) (st : SGState) (local_target : String) :
    Except PyErr Unit × SGState :=
  if env.args.sig ≠ [] then
    match save_patterns env st SIG_PATTERN env.args.sig with
    | (.error e, st') => (.error e, st')
    | (.ok sig_paths, st') => (verify_signatures_loop env local_target sig_paths, st')
  else (.ok (), st)

/-- The artifact loop of `verify_signed_messages`: keep the cleaned
artifacts that `gpg --verify` accepts; verification failures are only
debug-logged. -/
def verify_signed_messages_loop (env : Env) : List (List Char) → Except PyErr (List (List Char))
  | [] => .ok []
  | c :: rest =>
    match clean_gpg_data c with
    | .error e => .error e
    | .ok (true, cleaned) =>
      match verify_signed_messages_loop env rest with
      | .error e => .error e
      | .ok acc => if env.gpg_verify_signedmsg cleaned then .ok (cleaned :: acc) else .ok acc
    | .ok (false, _) => verify_signed_messages_loop env rest

/-- `verify_signed_messages`: extract signed-message blocks from one source
and return the ones that verify. -/
def verify_signed_messages (env : Env) (st : SGState) (source : String) :
    Except PyErr (List (List Char)) × SGState :=
  match save_patterns env st SIGNED_MESSAGE_PATTERN [source] with
  | (.error e, st') => (.error e, st')
  | (.ok paths, st') => (verify_signed_messages_loop env paths, st')

/-- `check_signed_hash_file`: re-clean the verified signed message and
search it for the target's digest. -/
def check_signed_hash_file (env : Env) (localpath : String) (content : List Char)
    (algo : String) : Except PyErr Bool :=
  match clean_gpg_data content with
  | .error e => .error e
  | .ok (true, c2) => .ok (search_for_hash env localpath algo c2)
  | .ok (false, _) => .ok false

/-- The inner `for signed_hash_file in signed_data_files` loop: once
matched, remaining files are skipped. -/
def signed_hash_files_loop (env : Env) (localpath algo : String) :
    List (List Char) → Bool → Except PyErr Bool
  | [], m => .ok m
  | c :: rest, m =>
    if m then signed_hash_files_loop env localpath algo rest m
    else
      match check_signed_hash_file env localpath c algo with
      | .error e => .error e
      | .ok b => signed_hash_files_loop env localpath algo rest b

/-- The outer `for signed_hash_arg in args.signedhash` loop of
`verify_signed_hashes`; `m` is the running `matched` flag. -/
def verify_signed_hashes_loop (env : Env) (localpath : String) :
    List String → SGState → Bool → Except PyErr Bool × SGState
  | [], st, m => (.ok m, st)
  | arg :: rest, st, m =>
    match parse_hash arg with
    | .error e => (.error e, st)
    | .ok (algo, source) =>
      if algo ∈ hash_algorithms env then
        match verify_signed_messages env st source with
        | (.error e, st') => (.error e, st')
        | (.ok files, st') =>
          match signed_hash_files_loop env localpath algo files m with
          | .error e => (.error e, st')
          | .ok m2 => verify_signed_hashes_loop env localpath rest st' m2
      else
        (.error (.safegetFail (algo ++ " not in available hash algorithms: " ++
          String.intercalate " " (hash_algorithms env))), st)

/-- Python `str(list_of_strings)`. -/
def pyStrList (xs : List String) : String :=
  "[" ++ String.intercalate ", " (xs.map (fun s => "\x27" ++ s ++ "\x27")) ++ "]"

/-- `verify_signed_hashes`: one matching digest across all the listed
sources suffices; none at all is fatal. -/
def verify_signed_hashes (env : Env) (st : SGState) (localpath : String) :
    Except PyErr Unit × SGState :=
  if env.args.signedhash ≠ [] then
    match verify_signed_hashes_loop env localpath env.args.signedhash st false with
    | (.error e, st') => (.error e, st')
    | (.ok matched, st') =>
      if matched then (.ok (), st')
      else
        (.error (.safegetFail
          ("no matching signed hash found in " ++ pyStrList env.args.signedhash)), st')
  else (.ok (), st)

/-- The `for hash_arg in args.hash` loop of `verify_explicit_hashes`.
`lastActual` models the Python local variable `actual_hash`, which is only
assigned in the non-URL branch: if the failure message is built before it
has ever been assigned, the f-string raises `NameError`. -/
def verify_explicit_hashes_loop (env : Env) (localpath : String) :
    List String → SGState → Option String → Except PyErr Unit × SGState
  | [], st, _ => (.ok (), st)
  | harg :: rest, st, lastActual =>
    match parse_hash harg with
    | .error e => (.error e, st)
    | .ok (algo, hash_or_url) =>
      if algo ∈ hash_algorithms env then
        if is_url hash_or_url then
          let vs := verify_source env.args st hash_or_url
          match vs.res with
          | .error e => (.error e, vs.st)
          | .ok _ =>
            match download env vs.st hash_or_url tempName with
            | (.error e, st') => (.error e, st')
            | (.ok _, st') =>
              match env.readfile hash_or_url with
              | none => (.error .unicodeDecodeError, st')
              | some url_content =>
                if search_for_hash env localpath algo url_content then
                  verify_explicit_hashes_loop env localpath rest st' lastActual
                else
                  match lastActual with
                  | some actual =>
                    (.error (.safegetFail (env.abspath localpath ++
                      " expected hash did not match actual hash " ++ algo ++ ":" ++ actual)), st')
                  | none => (.error (.nameError "actual_hash"), st')
        else
          let expected := hash_or_url
          if algo ≠ "" ∧ expected ≠ "" then
            let actual := hash_data env algo localpath
            if compare_hashes expected actual then
              verify_explicit_hashes_loop env localpath rest st (some actual)
            else
              (.error (.safegetFail (env.abspath localpath ++
                " expected hash did not match actual hash " ++ algo ++ ":" ++ actual)), st)
          else
            match lastActual with
            | some actual =>
              (.error (.safegetFail (env.abspath localpath ++
                " expected hash did not match actual hash " ++ algo ++ ":" ++ actual)), st)
            | none => (.error (.nameError "actual_hash"), st)
      else
        (.error (.safegetFail (algo ++ " not in available hash algorithms: " ++
          String.intercalate " " (hash_algorithms env))), st)

/-- `verify_explicit_hashes`: every `--hash` entry must match. -/
def verify_explicit_hashes (env : Env) (st : SGState) (localpath : String) :
    Except PyErr Unit × SGState :=
  if env.args.hash ≠ [] then
    verify_explicit_hashes_loop env localpath env.args.hash st none
  else (.ok (), st)

/-- `int(args_size.replace(',', ''))`-style comma stripping. -/
def stripCommas (s : String) : String :=
  String.mk (s.data.filter (fun c => c ≠ ','))

/-- `verify_size`: if a size was declared, the file's byte count must equal
it; a malformed size string raises `ValueError`. -/
def verify_size (env : Env) (st : SGState) (localpath : String) :
    Except PyErr Unit × SGState :=
  match env.args.size with
  | none => (.ok (), st)
  | some s =>
    if s = "" then (.ok (), st)
    else
      match (stripCommas s).toNat? with
      | none => (.error (.valueError "size must be an integer"), st)
      | some n =>
        if env.getsize localpath = n then (.ok (), st)
        else (.error (.safegetFail ("file size is not " ++ toString n)), st)

/-- `verify_file`: import keys when any signature-based tier is configured,
then run the tiers in decreasing order of strength.  A normal return is the
`Verified <file>` message; any raised error aborts the run. -/
def verify_file (env : Env) (st : SGState) (local_target : String) :
    Except PyErr Unit × SGState :=
  let s0 : Except PyErr Unit × SGState :=
    if env.args.signedmsg ≠ [] ∨ env.args.signedhash ≠ [] ∨ env.args.sig ≠ [] then
      get_pubkeys env st
    else (.ok (), st)
  match s0 with
  | (.error e, st') => (.error e, st')
  | (.ok _, st1) =>
    match verify_signatures env st1 local_target with
    | (.error e, st') => (.error e, st')
    | (.ok _, st2) =>
      match verify_signed_hashes env st2 local_target with
      | (.error e, st') => (.error e, st')
      | (.ok _, st3) =>
        match verify_explicit_hashes env st3 local_target with
        | (.error e, st') => (.error e, st')
        | (.ok _, st4) => verify_size env st4 local_target

/-! ### Specification-side predicates and concrete environments -/

/-- Matching semantics of one `--hash` entry (C3): a direct value must
equal the locally computed digest, a URL entry must contain the digest as a
substring. -/
def entryMatches (env : Env) (localpath e : String) : Bool :=
  match parse_hash e with
  | .error _ => false
  | .ok (algo, v) =>
    if is_url v then search_for_hash env localpath algo ((env.readfile v).getD [])
    else compare_hashes v (hash_data env algo localpath)

/-- Well-formedness of a `--hash` entry used as hypothesis for the C3
theorem: it parses, names an available algorithm, a direct value is
nonempty, and a URL entry passes the trust check, downloads and decodes. -/
def hashEntryGood (env : Env) (st : SGState) (e : String) : Prop :=
  ∃ a v, parse_hash e = .ok (a, v) ∧ a ∈ hash_algorithms env ∧
    (is_url v = false → v ≠ "") ∧
    (is_url v = true →
      (verify_source env.args st v).res = .ok () ∧
      (download env st v tempName).1 = .ok () ∧
      env.readfile v ≠ none)

/-- The signed-message blocks extracted from a source (C7). -/
def extractedMsgs (env : Env) (source : String) : List (List Char) :=
  env.re_findall SIGNED_MESSAGE_PATTERN ((env.readfile source).getD [])

/-- The function keeping an extracted block iff it survives cleaning and
its PGP signed message verifies; the kept value is the cleaned text. -/
def keepVerified (env : Env) (c : List Char) : Option (List Char) :=
  match clean_gpg_data c with
  | .ok (true, t) => if env.gpg_verify_signedmsg t then some t else none
  | _ => none

/-- The cleaned, signature-verified signed messages of a source (C7). -/
def verifiedMsgs (env : Env) (source : String) : List (List Char) :=
  (extractedMsgs env source).filterMap (keepVerified env)

/-- One verified signed message yields a match iff, after the second
cleaning pass, the target's digest occurs in it as a substring (C7). -/
def msgYieldsMatch (env : Env) (localpath algo : String) (c : List Char) : Bool :=
  match check_signed_hash_file env localpath c algo with
  | .ok b => b
  | .error _ => false

/-- A `--signedhash` source yields a match iff one of its *verified* signed
messages contains the target's digest (C7): the digest search happens only
inside successfully verified signed messages. -/
def sourceYieldsMatch (env : Env) (localpath algo source : String) : Bool :=
  (verifiedMsgs env source).any (msgYieldsMatch env localpath algo)

/-- Matching semantics of one `--signedhash` argument (C7). -/
def argYieldsMatch (env : Env) (localpath : String) (arg : String) : Bool :=
  match parse_hash arg with
  | .ok (algo, source) => sourceYieldsMatch env localpath algo source
  | .error _ => false

/-- Second-cleaning safety: if an artifact cleans to `(True, t)` then
cleaning `t` again does not raise. -/
def doubleCleanOkB (c : List Char) : Bool :=
  match clean_gpg_data c with
  | .ok (true, t) => (clean_gpg_data t).isOk
  | _ => true

/-- Well-formedness of a `--signedhash` argument used as hypothesis for the
C7 theorem: it parses, names an available algorithm, is a local file that
exists and decodes, contains at least one signed-message block, and no
block makes the cleaning assertion fire. -/
def signedHashArgGood (env : Env) (arg : String) : Prop :=
  ∃ a src, parse_hash arg = .ok (a, src) ∧ a ∈ hash_algorithms env ∧ is_url src = false ∧
    env.path_exists src = true ∧
    ∃ content, env.readfile src = some content ∧
      env.re_findall SIGNED_MESSAGE_PATTERN content ≠ [] ∧
      ∀ c ∈ env.re_findall SIGNED_MESSAGE_PATTERN content,
        (clean_gpg_data c).isOk = true ∧ doubleCleanOkB c = true

/-- A default environment whose oracles all answer negatively. -/
def baseEnv : Env where
  args := { target := "t" }
  path_exists := fun _ => false
  getsize := fun _ => 0
  readfile := fun _ => none
  re_findall := fun _ _ => []
  hexdigest := fun _ _ => ""
  algorithms_available := []
  gpg_import_ok := fun _ => false
  gpg_verify_detached := fun _ _ => false
  gpg_verify_signedmsg := fun _ => false
  download_url := fun _ _ => (false, none)
  answer := fun _ => ""
  testing := false
  abspath := fun s => s

/-- Environment for C1: a local target, one detached-signature source whose
single extracted candidate cleans fine, one public key that imports fine,
and a gpg that rejects *every* detached-signature verification. -/
def envC1 : Env :=
  { baseEnv with
    args := { target := "app.bin", sig := ["sigs.txt"], pubkey := ["pub.txt"] }
    path_exists := fun s => s = "sigs.txt" || s = "pub.txt" || s = "app.bin"
    readfile := fun s =>
      if s = "sigs.txt" then some (List.replicate 101 's')
      else if s = "pub.txt" then some (List.replicate 101 'p')
      else none
    re_findall := fun _ content => [content]
    gpg_import_ok := fun _ => true
    gpg_verify_detached := fun _ _ => false }

/-- Environment for the C6 witness: every download attempt fails. -/
def envC6w : Env :=
  { baseEnv with
    args := { target := "https://trusted.example/app", tries := 3 }
    download_url := fun _ _ => (false, some "timed out") }

/-- Environment for the C6 counterexample: 7 tries, a fixed transport
failure reason. -/
def envC6x : Env :=
  { baseEnv with
    args := { target := "https://trusted.example/app", tries := 7 }
    download_url := fun _ _ => (false, some "connection refused") }

/-- Environment for the C3 counterexample and witness: one explicit hash
entry that cannot match the locally computed digest. -/
def envC3 : Env :=
  { baseEnv with
    args := { target := "app.bin", hash := ["SHA256:bbbb"] }
    algorithms_available := ["SHA256"]
    hexdigest := fun _ _ => "aaaa" }

/-- Environment for the C7 witness: one signed-hash source with one
signed-message block that verifies and contains the target's digest. -/
def envC7 : Env :=
  { baseEnv with
    args := { target := "app.bin", signedhash := ["SHA256:hashes.txt"],
              pubkey := ["pub.txt"] }
    path_exists := fun s => s = "hashes.txt"
    readfile := fun s =>
      if s = "hashes.txt" then some (List.replicate 100 'x' ++ ['a', 'a', 'b', 'b'])
      else none
    re_findall := fun _ content => [content]
    algorithms_available := ["SHA256"]
    hexdigest := fun _ _ => "AABB"
    gpg_verify_signedmsg := fun _ => true }

/-- Environment for the C9 witness: an existing non-empty file and a user
who answers `no`. -/
def envC9 : Env :=
  { baseEnv with
    path_exists := fun _ => true
    getsize := fun _ => 5
    answer := fun _ => "no" }

/-! ## Theorems -/

theorem containsSeq_iff (p xs : List Char) : containsSeq p xs = true ↔ p <:+: xs := by
  induction xs with
  | nil =>
    simp only [containsSeq, List.isEmpty_iff]
    constructor
    · intro h; simp [h]
    · intro h; exact List.eq_nil_of_infix_nil h
  | cons x t ih =>
    simp only [containsSeq, Bool.or_eq_true, List.isPrefixOf_iff_prefix, ih,
      List.infix_cons_iff]

theorem splitChar_ne_nil (sep : Char) (xs : List Char) : splitChar sep xs ≠ [] := by
  cases xs with
  | nil => simp [splitChar]
  | cons x t =>
    simp only [splitChar]
    cases h : splitChar sep t with
    | nil => simp
    | cons y ys =>
      by_cases hx : x = sep <;> simp [hx]

theorem splitChar_length (sep : Char) (xs : List Char) :
    (splitChar sep xs).length = xs.count sep + 1 := by
  induction xs with
  | nil => simp [splitChar]
  | cons x t ih =>
    simp only [splitChar]
    cases h : splitChar sep t with
    | nil => exact absurd h (splitChar_ne_nil sep t)
    | cons y ys =>
      rw [h] at ih
      by_cases hx : x = sep
      · subst hx
        simp only [List.count_cons, List.length_cons, if_pos rfl]
        simp only [List.length_cons] at ih
        simp [ih]
      · simp only [if_neg hx, List.count_cons, List.length_cons]
        simp only [List.length_cons] at ih
        have : (sep == x) = false := by
          simp [BEq.beq]
          exact fun h' => hx h'.symm
        simp [this, ih, hx]

theorem splitChar_head (sep : Char) (xs : List Char) :
    (splitChar sep xs).head? = some (xs.takeWhile (fun c => c ≠ sep)) := by
  induction xs with
  | nil => simp [splitChar]
  | cons x t ih =>
    simp only [splitChar]
    cases h : splitChar sep t with
    | nil => exact absurd h (splitChar_ne_nil sep t)
    | cons y ys =>
      rw [h] at ih
      simp only [List.head?_cons, Option.some.injEq] at ih
      by_cases hx : x = sep
      · subst hx
        simp [List.takeWhile_cons]
      · simp [hx, List.takeWhile_cons, ih]

/-! ### `urllib.parse.urlparse` (the slice of it the program uses) -/







/-- C10: `parse_host` is total only for URLs whose netloc has at most one
colon: no colon returns the whole netloc, one colon returns the part before
it, two or more colons raise an uncaught `ValueError`. -/
theorem parse_host_colon_spec (url : String) :
    ((netlocOf url).count ':' = 0 → parse_host url = .ok (String.mk (netlocOf url))) ∧
    ((netlocOf url).count ':' = 1 →
      parse_host url = .ok (String.mk ((netlocOf url).takeWhile (fun c => c ≠ ':')))) ∧
    (2 ≤ (netlocOf url).count ':' →
      parse_host url = .error (.valueError "too many values to unpack")) := by
  refine ⟨fun h0 => ?_, fun h1 => ?_, fun h2 => ?_⟩
  · have hmem : ':' ∉ netlocOf url := List.count_eq_zero.mp h0
    have hc : (netlocOf url).contains ':' = false := by
      simp only [List.contains, List.elem_eq_mem, decide_eq_false_iff_not]
      exact hmem
    simp only [parse_host, hc]
    simp
  · have hmem : ':' ∈ netlocOf url := List.count_pos_iff_mem.mp (by omega)
    have hc : (netlocOf url).contains ':' = true := by
      simp only [List.contains, List.elem_eq_mem, decide_eq_true_iff]
      exact hmem
    have hlen : (splitChar ':' (netlocOf url)).length = 2 := by
      rw [splitChar_length, h1]
    have hhead := splitChar_head ':' (netlocOf url)
    rcases hs : splitChar ':' (netlocOf url) with _ | ⟨a, _ | ⟨b, _ | ⟨c, t⟩⟩⟩ <;>
      rw [hs] at hlen hhead <;> simp only [List.length_cons, List.length_nil] at hlen
    · omega
    · omega
    · simp only [List.head?_cons, Option.some.injEq] at hhead
      simp only [parse_host, hc, hs, hhead]
      simp
    · omega
  · have hmem : ':' ∈ netlocOf url := List.count_pos_iff_mem.mp (by omega)
    have hc : (netlocOf url).contains ':' = true := by
      simp only [List.contains, List.elem_eq_mem, decide_eq_true_iff]
      exact hmem
    have hlen : 3 ≤ (splitChar ':' (netlocOf url)).length := by
      rw [splitChar_length]; omega
    rcases hs : splitChar ':' (netlocOf url) with _ | ⟨a, _ | ⟨b, _ | ⟨c, t⟩⟩⟩ <;>
      rw [hs] at hlen <;> simp only [List.length_cons, List.length_nil] at hlen
    · omega
    · omega
    · omega
    · simp only [parse_host, hc, hs]
      simp

/-- Witness for C10: a URL with an IPv6-literal netloc (three colons) makes
`parse_host` raise `ValueError`, while a one-colon host-port netloc returns
the host. -/
theorem parse_host_colon_spec_witness :
    2 ≤ (netlocOf "https://[2001:db8::1]:8080/f").count ':' ∧
    parse_host "https://[2001:db8::1]:8080/f" =
      .error (.valueError "too many values to unpack") ∧
    parse_host "https://example.com:443/f" = .ok "example.com" :=
  ⟨by decide, (parse_host_colon_spec "https://[2001:db8::1]:8080/f").2.2 (by decide),
    by
      have h := (parse_host_colon_spec "https://example.com:443/f").2.1 (by decide)
      simpa using h⟩

/-! ### Source trust policy: `verify_source` and `verify_args` -/

/-- C2: with all three of `--sig`, `--signedhash`, `--hash` empty the
request is rejected with a configuration error (before any network
activity: `verify_args` performs none), whatever `--size` says. -/
theorem verify_args_requires_verification (a : Args) (st : SGState)
    (hsig : a.sig = []) (hsh : a.signedhash = []) (hh : a.hash = []) :
    (verify_args a st).1 =
      .error (.safegetFail "File signature, signed hash, or explicit hash required") := by
  simp [verify_args, hsig, hsh, hh]

/-- Witness for C2: a request with only a target and a size is rejected. -/
theorem verify_args_requires_verification_witness :
    (verify_args { target := "https://example.com/app", size := some "1024" } ⟨none⟩).1 =
      .error (.safegetFail "File signature, signed hash, or explicit hash required") :=
  verify_args_requires_verification _ _ rfl rfl rfl

/-- C4 (amended): `target_host` is write-once and always established from
the target: once set it is never reassigned; validating a non-target URL
source first is a fatal contract violation; but a non-target *local-path*
source validated first does not fail — it silently sets the anchor to the
raw target string. -/
theorem target_host_anchor_spec (a : Args) (st : SGState) (source : String) :
    (∀ th, st.target_host = some th → (verify_source a st source).st.target_host = some th) ∧
    (st.target_host = none → is_url source = true → source ≠ a.target →
      schemeOf source ∈ SAFE_PROTOCOLS → ∀ h, parse_host source = .ok h →
      (verify_source a st source).res =
        .error (.safegetFail "safeget error: target source must be verified first") ∧
      (verify_source a st source).st = st) ∧
    (st.target_host = none → is_url source = true → source = a.target →
      schemeOf source ∈ SAFE_PROTOCOLS → ∀ h, parse_host source = .ok h →
      (verify_source a st source).res = .ok () ∧
      (verify_source a st source).st.target_host = some h) ∧
    (st.target_host = none → is_url source = false →
      verify_source a st source = ⟨.ok (), ⟨some a.target⟩, []⟩) := by
  refine ⟨?_, ?_, ?_, ?_⟩
  · intro th hth
    by_cases hu : is_url source <;>
      by_cases hs : schemeOf source ∈ SAFE_PROTOCOLS <;>
        simp only [verify_source, hu, hs, hth, if_true, if_false, reduceIte] <;>
          try exact hth
    · rcases hph : parse_host source with e | host <;> simp only [hph]
      · exact hth
      · split_ifs <;> simp_all
  · intro hth hu hne hs h hph
    simp only [verify_source, hu, if_true, hs, not_true, reduceIte, hph, hth, if_pos rfl,
      if_neg hne]
    simp [hne]
  · intro hth hu heq hs h hph
    subst heq
    simp only [verify_source, hu, if_true, hs, not_true, reduceIte, hph, hth, if_pos rfl]
    simp
  · intro hth hu
    simp [verify_source, hu, hth]

/-- Counterexample for C4 as stated: validating a non-target *local-path*
source before the target is NOT fatal — `verify_source` returns normally
and silently sets the anchor to the raw target string. -/
theorem target_host_anchor_cex :
    verify_source { target := "https://example.com/app.bin" } ⟨none⟩ "local.sig" =
      ⟨.ok (), ⟨some "https://example.com/app.bin"⟩, []⟩ ∧
    ("local.sig" : String) ≠ "https://example.com/app.bin" ∧
    is_url "local.sig" = false := by
  refine ⟨by decide, by decide, by decide⟩

/-- Witness for C4 (amended): a non-target URL validated while the anchor
is unset fails with the contract-violation message, and an already-set
anchor survives any later validation unchanged. -/
theorem target_host_anchor_spec_witness :
    (verify_source { target := "https://t.example/f" } ⟨none⟩ "https://aux.example/s").res =
      .error (.safegetFail "safeget error: target source must be verified first") ∧
    (verify_source { target := "https://t.example/f" } ⟨some "t.example"⟩
        "https://aux.example/s").st.target_host = some "t.example" :=
  ⟨((target_host_anchor_spec { target := "https://t.example/f" } ⟨none⟩
      "https://aux.example/s").2.1 rfl (by decide) (by decide) (by decide)
      "aux.example" (by decide)).1,
    (target_host_anchor_spec { target := "https://t.example/f" } ⟨some "t.example"⟩
      "https://aux.example/s").1 "t.example" rfl⟩

/-- C5: a non-target URL on the trust-anchor host produces a warning but
returns normally when `--onehost` is not set, and neither warning nor
failure when it is; a URL with a scheme outside the https/sftp/file
allow-list fails hard whatever `--onehost` says. -/
theorem verify_source_same_host_policy (a : Args) (st : SGState) (source th : String) :
    (is_url source = true → schemeOf source ∉ SAFE_PROTOCOLS →
      (verify_source a st source).res =
        .error (.safegetFail
          ("url does not use a safe protocol (https or sftp or file): " ++ source))) ∧
    (is_url source = true → schemeOf source ∈ SAFE_PROTOCOLS →
      st.target_host = some th → parse_host source = .ok th → source ≠ a.target →
      a.onehost = false →
      verify_source a st source = ⟨.ok (), st, [sameHostWarning source]⟩) ∧
    (is_url source = true → schemeOf source ∈ SAFE_PROTOCOLS →
      st.target_host = some th → parse_host source = .ok th → source ≠ a.target →
      a.onehost = true →
      verify_source a st source = ⟨.ok (), st, []⟩) := by
  refine ⟨?_, ?_, ?_⟩
  · intro hu hs
    simp [verify_source, hu, hs]
  · intro hu hs hth hph hne hoh
    simp only [verify_source, hu, if_true, hs, not_true, reduceIte, hph, hth]
    split_ifs <;> simp_all
  · intro hu hs hth hph hne hoh
    simp only [verify_source, hu, if_true, hs, not_true, reduceIte, hph, hth]
    split_ifs <;> simp_all

/-- Witness for C5: a signature URL on the same host as the target warns
without `--onehost` and is silent with it; an http URL fails hard. -/
theorem verify_source_same_host_policy_witness :
    verify_source { target := "https://m.example/app" } ⟨some "m.example"⟩
        "https://m.example/app.sig" =
      ⟨.ok (), ⟨some "m.example"⟩, [sameHostWarning "https://m.example/app.sig"]⟩ ∧
    verify_source { target := "https://m.example/app", onehost := true } ⟨some "m.example"⟩
        "https://m.example/app.sig" =
      ⟨.ok (), ⟨some "m.example"⟩, []⟩ ∧
    (verify_source { target := "https://m.example/app" } ⟨some "m.example"⟩
        "http://other.example/app.sig").res =
      .error (.safegetFail
        ("url does not use a safe protocol (https or sftp or file): " ++
          "http://other.example/app.sig")) :=
  ⟨(verify_source_same_host_policy { target := "https://m.example/app" } ⟨some "m.example"⟩
      "https://m.example/app.sig" "m.example").2.1 (by decide) (by decide) rfl (by decide)
      (by decide) rfl,
    (verify_source_same_host_policy { target := "https://m.example/app", onehost := true }
      ⟨some "m.example"⟩ "https://m.example/app.sig" "m.example").2.2 (by decide) (by decide)
      rfl (by decide) (by decide) rfl,
    (verify_source_same_host_policy { target := "https://m.example/app" } ⟨some "m.example"⟩
      "http://other.example/app.sig" "m.example").1 (by decide) (by decide)⟩

theorem unescapeNewlines_eq_cons (x : Char) (t : List Char)
    (h : ∀ (t1 : List Char), x = '\\' → t = 'n' :: t1 → False) :
    unescapeNewlines (x :: t) = x :: unescapeNewlines t := by
  rw [unescapeNewlines.eq_def]
  split
  · rename_i t1 heq
    injection heq with h1 h2
    exact (h t1 h1 h2).elim
  · rename_i y t1 heq
    injection heq with h1 h2
    subst h1; subst h2; rfl
  · rename_i heq
    exact absurd heq (by simp)

theorem unescapeNewlines_head (t : List Char) (c : Char)
    (hc : (unescapeNewlines t).head? = some c) : c = '\n' ∨ t.head? = some c := by
  rw [unescapeNewlines.eq_def] at hc
  split at hc
  · left
    simp only [List.head?_cons, Option.some.injEq] at hc
    exact hc.symm
  · right
    simp only [List.head?_cons, Option.some.injEq] at hc
    simp [hc]
  · simp at hc

/-- After unescaping, no literal backslash-n pair remains. -/
theorem unescapeNewlines_no_escaped (xs : List Char) :
    ¬ (['\\', 'n'] <:+: unescapeNewlines xs) := by
  induction xs using unescapeNewlines.induct with
  | case1 t ih =>
    simp only [unescapeNewlines]
    rw [List.infix_cons_iff]
    rintro (hpre | hinf)
    · exact absurd (List.cons_prefix_cons.mp hpre).1 (by decide)
    · exact ih hinf
  | case2 x t h ih =>
    rw [unescapeNewlines_eq_cons x t h]
    rw [List.infix_cons_iff]
    rintro (hpre | hinf)
    · rcases List.cons_prefix_cons.mp hpre with ⟨hx, hn⟩
      rcases hn with ⟨rest, hrest⟩
      have hhd : (unescapeNewlines t).head? = some 'n' := by
        rw [← hrest]; rfl
      rcases unescapeNewlines_head t 'n' hhd with hc | hc
      · exact absurd hc (by decide)
      · rcases t with _ | ⟨y, t'⟩
        · simp at hc
        · simp only [List.head?_cons, Option.some.injEq] at hc
          exact h t' hx.symm (by rw [hc])
    · exact ih hinf
  | case3 =>
    show ¬ (['\\', 'n'] <:+: ([] : List Char))
    decide

/-- If the text contains no backslash-r pair, the `'\\r'` removal is the
identity. -/
theorem stripEscapedCR_id (xs : List Char) (h : ¬ (['\\', 'r'] <:+: xs)) :
    stripEscapedCR xs = xs := by
  induction xs using stripEscapedCR.induct with
  | case1 t ih =>
    exact absurd ⟨[], t, rfl⟩ h
  | case2 x t hside ih =>
    rw [stripEscapedCR.eq_def]
    split
    · rename_i t1 heq
      injection heq with h1 h2
      exact (hside t1 h1 h2).elim
    · rename_i y t1 heq
      injection heq with h1 h2
      subst h1; subst h2
      rw [ih (fun hinf => h (List.infix_cons hinf))]
    · rename_i heq
      exact absurd heq (by simp)
  | case3 => rfl

theorem pOpenToNewline_eq_cons (x : Char) (t : List Char)
    (h : ∀ (t1 : List Char), x = '<' → t = 'p' :: '>' :: t1 → False) :
    pOpenToNewline (x :: t) = x :: pOpenToNewline t := by
  rw [pOpenToNewline.eq_def]
  split
  · rename_i t1 heq
    injection heq with h1 h2
    exact (h t1 h1 h2).elim
  · rename_i y t1 heq
    injection heq with h1 h2
    subst h1; subst h2; rfl
  · rename_i heq
    exact absurd heq (by simp)

theorem pOpenToNewline_head (t : List Char) (c : Char)
    (hc : (pOpenToNewline t).head? = some c) : c = '\n' ∨ t.head? = some c := by
  rw [pOpenToNewline.eq_def] at hc
  split at hc
  · left
    simp only [List.head?_cons, Option.some.injEq] at hc
    exact hc.symm
  · right
    simp only [List.head?_cons, Option.some.injEq] at hc
    simp [hc]
  · simp at hc

theorem pOpenToNewline_preserves (xs : List Char) :
    ¬ (['\\', 'n'] <:+: xs) → ¬ (['\\', 'n'] <:+: pOpenToNewline xs) := by
  induction xs using pOpenToNewline.induct with
  | case1 t ih =>
    intro h
    simp only [pOpenToNewline]
    rw [List.infix_cons_iff]
    rintro (hpre | hinf)
    · exact absurd (List.cons_prefix_cons.mp hpre).1 (by decide)
    · exact ih
        (fun hx => h (List.infix_cons (List.infix_cons (List.infix_cons hx)))) hinf
  | case2 x t hside ih =>
    intro h
    rw [pOpenToNewline_eq_cons x t hside]
    rw [List.infix_cons_iff]
    rintro (hpre | hinf)
    · rcases List.cons_prefix_cons.mp hpre with ⟨hx, hn⟩
      rcases hn with ⟨rest, hrest⟩
      have hhd : (pOpenToNewline t).head? = some 'n' := by
        rw [← hrest]; rfl
      rcases pOpenToNewline_head t 'n' hhd with hc | hc
      · exact absurd hc (by decide)
      · rcases t with _ | ⟨y, t'⟩
        · simp at hc
        · simp only [List.head?_cons, Option.some.injEq] at hc
          subst hc
          exact h ⟨[], t', by subst hx; rfl⟩
    · exact ih (fun hx => h (List.infix_cons hx)) hinf
  | case3 =>
    intro h
    show ¬ (['\\', 'n'] <:+: ([] : List Char))
    decide

theorem pCloseToNewline_eq_cons (x : Char) (t : List Char)
    (h : ∀ (t1 : List Char), x = '<' → t = '/' :: 'p' :: '>' :: t1 → False) :
    pCloseToNewline (x :: t) = x :: pCloseToNewline t := by
  rw [pCloseToNewline.eq_def]
  split
  · rename_i t1 heq
    injection heq with h1 h2
    exact (h t1 h1 h2).elim
  · rename_i y t1 heq
    injection heq with h1 h2
    subst h1; subst h2; rfl
  · rename_i heq
    exact absurd heq (by simp)

theorem pCloseToNewline_head (t : List Char) (c : Char)
    (hc : (pCloseToNewline t).head? = some c) : c = '\n' ∨ t.head? = some c := by
  rw [pCloseToNewline.eq_def] at hc
  split at hc
  · left
    simp only [List.head?_cons, Option.some.injEq] at hc
    exact hc.symm
  · right
    simp only [List.head?_cons, Option.some.injEq] at hc
    simp [hc]
  · simp at hc

theorem pCloseToNewline_preserves (xs : List Char) :
    ¬ (['\\', 'n'] <:+: xs) → ¬ (['\\', 'n'] <:+: pCloseToNewline xs) := by
  induction xs using pCloseToNewline.induct with
  | case1 t ih =>
    intro h
    simp only [pCloseToNewline]
    rw [List.infix_cons_iff]
    rintro (hpre | hinf)
    · exact absurd (List.cons_prefix_cons.mp hpre).1 (by decide)
    · exact ih
        (fun hx => h (List.infix_cons (List.infix_cons (List.infix_cons (List.infix_cons hx))))) hinf
  | case2 x t hside ih =>
    intro h
    rw [pCloseToNewline_eq_cons x t hside]
    rw [List.infix_cons_iff]
    rintro (hpre | hinf)
    · rcases List.cons_prefix_cons.mp hpre with ⟨hx, hn⟩
      rcases hn with ⟨rest, hrest⟩
      have hhd : (pCloseToNewline t).head? = some 'n' := by
        rw [← hrest]; rfl
      rcases pCloseToNewline_head t 'n' hhd with hc | hc
      · exact absurd hc (by decide)
      · rcases t with _ | ⟨y, t'⟩
        · simp at hc
        · simp only [List.head?_cons, Option.some.injEq] at hc
          subst hc
          exact h ⟨[], t', by subst hx; rfl⟩
    · exact ih (fun hx => h (List.infix_cons hx)) hinf
  | case3 =>
    intro h
    show ¬ (['\\', 'n'] <:+: ([] : List Char))
    decide

theorem brToNewline_eq_cons (x : Char) (t : List Char)
    (h : ∀ (t1 : List Char), x = '<' → t = 'b' :: 'r' :: '>' :: t1 → False) :
    brToNewline (x :: t) = x :: brToNewline t := by
  rw [brToNewline.eq_def]
  split
  · rename_i t1 heq
    injection heq with h1 h2
    exact (h t1 h1 h2).elim
  · rename_i y t1 heq
    injection heq with h1 h2
    subst h1; subst h2; rfl
  · rename_i heq
    exact absurd heq (by simp)

theorem brToNewline_head (t : List Char) (c : Char)
    (hc : (brToNewline t).head? = some c) : c = '\n' ∨ t.head? = some c := by
  rw [brToNewline.eq_def] at hc
  split at hc
  · left
    simp only [List.head?_cons, Option.some.injEq] at hc
    exact hc.symm
  · right
    simp only [List.head?_cons, Option.some.injEq] at hc
    simp [hc]
  · simp at hc

theorem brToNewline_preserves (xs : List Char) :
    ¬ (['\\', 'n'] <:+: xs) → ¬ (['\\', 'n'] <:+: brToNewline xs) := by
  induction xs using brToNewline.induct with
  | case1 t ih =>
    intro h
    simp only [brToNewline]
    rw [List.infix_cons_iff]
    rintro (hpre | hinf)
    · exact absurd (List.cons_prefix_cons.mp hpre).1 (by decide)
    · exact ih
        (fun hx => h (List.infix_cons (List.infix_cons (List.infix_cons (List.infix_cons hx))))) hinf
  | case2 x t hside ih =>
    intro h
    rw [brToNewline_eq_cons x t hside]
    rw [List.infix_cons_iff]
    rintro (hpre | hinf)
    · rcases List.cons_prefix_cons.mp hpre with ⟨hx, hn⟩
      rcases hn with ⟨rest, hrest⟩
      have hhd : (brToNewline t).head? = some 'n' := by
        rw [← hrest]; rfl
      rcases brToNewline_head t 'n' hhd with hc | hc
      · exact absurd hc (by decide)
      · rcases t with _ | ⟨y, t'⟩
        · simp at hc
        · simp only [List.head?_cons, Option.some.injEq] at hc
          subst hc
          exact h ⟨[], t', by subst hx; rfl⟩
    · exact ih (fun hx => h (List.infix_cons hx)) hinf
  | case3 =>
    intro h
    show ¬ (['\\', 'n'] <:+: ([] : List Char))
    decide

theorem brSlashToNewline_eq_cons (x : Char) (t : List Char)
    (h : ∀ (t1 : List Char), x = '<' → t = 'b' :: 'r' :: '/' :: '>' :: t1 → False) :
    brSlashToNewline (x :: t) = x :: brSlashToNewline t := by
  rw [brSlashToNewline.eq_def]
  split
  · rename_i t1 heq
    injection heq with h1 h2
    exact (h t1 h1 h2).elim
  · rename_i y t1 heq
    injection heq with h1 h2
    subst h1; subst h2; rfl
  · rename_i heq
    exact absurd heq (by simp)

theorem brSlashToNewline_head (t : List Char) (c : Char)
    (hc : (brSlashToNewline t).head? = some c) : c = '\n' ∨ t.head? = some c := by
  rw [brSlashToNewline.eq_def] at hc
  split at hc
  · left
    simp only [List.head?_cons, Option.some.injEq] at hc
    exact hc.symm
  · right
    simp only [List.head?_cons, Option.some.injEq] at hc
    simp [hc]
  · simp at hc

theorem brSlashToNewline_preserves (xs : List Char) :
    ¬ (['\\', 'n'] <:+: xs) → ¬ (['\\', 'n'] <:+: brSlashToNewline xs) := by
  induction xs using brSlashToNewline.induct with
  | case1 t ih =>
    intro h
    simp only [brSlashToNewline]
    rw [List.infix_cons_iff]
    rintro (hpre | hinf)
    · exact absurd (List.cons_prefix_cons.mp hpre).1 (by decide)
    · exact ih
        (fun hx => h (List.infix_cons (List.infix_cons (List.infix_cons (List.infix_cons (List.infix_cons hx)))))) hinf
  | case2 x t hside ih =>
    intro h
    rw [brSlashToNewline_eq_cons x t hside]
    rw [List.infix_cons_iff]
    rintro (hpre | hinf)
    · rcases List.cons_prefix_cons.mp hpre with ⟨hx, hn⟩
      rcases hn with ⟨rest, hrest⟩
      have hhd : (brSlashToNewline t).head? = some 'n' := by
        rw [← hrest]; rfl
      rcases brSlashToNewline_head t 'n' hhd with hc | hc
      · exact absurd hc (by decide)
      · rcases t with _ | ⟨y, t'⟩
        · simp at hc
        · simp only [List.head?_cons, Option.some.injEq] at hc
          subst hc
          exact h ⟨[], t', by subst hx; rfl⟩
    · exact ih (fun hx => h (List.infix_cons hx)) hinf
  | case3 =>
    intro h
    show ¬ (['\\', 'n'] <:+: ([] : List Char))
    decide

/-- After the full normalization chain, no literal backslash-n pair remains,
provided the escaped-carriage-return removal has nothing to remove (the
problematic step): the unescaping step itself eliminates every backslash-n
pair and the HTML replacements cannot create one. -/
theorem cleanChars_no_escaped (xs : List Char)
    (h : ¬ (['\\', 'r'] <:+: unescapeNewlines (stripCaretSeq xs))) :
    ¬ (['\\', 'n'] <:+: cleanChars xs) := by
  unfold cleanChars
  rw [stripEscapedCR_id _ h]
  exact brSlashToNewline_preserves _
    (brToNewline_preserves _
      (pCloseToNewline_preserves _
        (pOpenToNewline_preserves _
          (unescapeNewlines_no_escaped (stripCaretSeq xs)))))

/-- C8 (amended): for every artifact text in which, after the caret-pattern
removal and the escaped-newline unescaping, no escaped-carriage-return
token remains, the normalized text contains no literal escaped-newline
token and the in-code assertion cannot fire.  (In general the assertion can
fail: the escaped-carriage-return removal can splice a backslash and an
`n` together — see the counterexample.) -/
theorem clean_gpg_data_assertion_spec (text : List Char)
    (h : ¬ (['\\', 'r'] <:+: unescapeNewlines (stripCaretSeq text))) :
    (∀ e, clean_gpg_data text ≠ .error e) ∧
    ¬ (['\\', 'n'] <:+: cleanChars text) := by
  have hclean := cleanChars_no_escaped text h
  have hcs : containsSeq ['\\', 'n'] (cleanChars text) = false := by
    cases hcsv : containsSeq ['\\', 'n'] (cleanChars text)
    · rfl
    · exact absurd ((containsSeq_iff _ _).mp hcsv) hclean
  refine ⟨fun e => ?_, hclean⟩
  simp only [clean_gpg_data, hcs]
  split_ifs <;> simp_all

/-- Counterexample for C8 as stated: on a (size-check-passing) text ending
in backslash, backslash, `r`, `n`, the escaped-carriage-return removal
creates a fresh literal escaped-newline token and the in-code assertion
fails with `AssertionError`. -/
theorem clean_gpg_data_assertion_cex :
    clean_gpg_data (List.replicate 100 'a' ++ ['\\', '\\', 'r', 'n']) =
      .error .assertionError := by decide

/-- Witness for C8 (amended): an ordinary 101-byte artifact cleans without
any assertion failure. -/
theorem clean_gpg_data_assertion_spec_witness :
    (∀ e, clean_gpg_data (List.replicate 101 'a') ≠ .error e) ∧
    ¬ (['\\', 'n'] <:+: cleanChars (List.replicate 101 'a')) :=
  clean_gpg_data_assertion_spec (List.replicate 101 'a')
    (by set_option maxRecDepth 40000 in decide)

/-- C9: `ok_to_write` never returns `False`: a missing or empty path gives
`True` without prompting, and a declined overwrite raises instead of
returning. -/
theorem ok_to_write_spec (env : Env) (path : String) :
    ((ok_to_write env path).1 ≠ .ok false) ∧
    ((env.path_exists path = false ∨ env.getsize path = 0) →
      ok_to_write env path = (.ok true, false)) ∧
    (env.path_exists path = true → env.getsize path ≠ 0 → env.testing = false →
      pyLower (env.answer path) ≠ "y" → pyLower (env.answer path) ≠ "yes" →
      (ok_to_write env path).1 =
        .error (.safegetFail ("did not replace " ++ env.abspath path))) := by
  unfold ok_to_write
  refine ⟨?_, ?_, ?_⟩
  · split_ifs <;> simp_all
  · intro h
    split_ifs with h1 <;> simp_all
  · intro h1 h2 h3 hy hyes
    split_ifs <;> simp_all

/-- Witness for C9: a declined overwrite of an existing non-empty file
raises; a missing file is writable without a prompt. -/
theorem ok_to_write_spec_witness :
    (ok_to_write envC9 "app.bin").1 =
      .error (.safegetFail ("did not replace " ++ "app.bin")) ∧
    ok_to_write baseEnv "app.bin" = (.ok true, false) :=
  ⟨(ok_to_write_spec envC9 "app.bin").2.2 rfl (by decide) rfl (by decide) (by decide),
    (ok_to_write_spec baseEnv "app.bin").2.1 (Or.inl rfl)⟩

/-- C1 (code bug): with a detached-signature tier as the only sufficiency
tier and a gpg that rejects every candidate, `verify_file` still returns
normally — `verify_signatures` extracts and tries the candidate (here one
candidate is extracted) but swallows every verification failure and records
nothing, so the run prints `Verified` instead of aborting. -/
theorem verify_signatures_failure_ignored :
    (save_patterns envC1 ⟨some "app.bin"⟩ SIG_PATTERN envC1.args.sig).1 =
      .ok [List.replicate 101 's'] ∧
    (∀ c t, envC1.gpg_verify_detached c t = false) ∧
    envC1.args.sig ≠ [] ∧ envC1.args.signedhash = [] ∧ envC1.args.hash = [] ∧
    envC1.args.size = none ∧
    (verify_file envC1 ⟨some "app.bin"⟩ "app.bin").1 = .ok () := by
  refine ⟨by decide, fun c t => rfl, by decide, rfl, rfl, rfl, ?_⟩
  set_option maxRecDepth 200000 in decide

/-- The retry loop under an always-failing fetch: it runs exactly `fuel`
attempts and reports the last attempt's reason. -/
theorem downloadAttempts_all_fail (f : Nat → Bool × Option String)
    (hfail : ∀ n, (f n).1 = false) :
    ∀ (fuel a : Nat) (r : Option String),
      downloadAttempts f fuel a r =
        (a + fuel, false, if fuel = 0 then r else (f (a + fuel - 1)).2) := by
  intro fuel
  induction fuel with
  | zero => intro a r; simp [downloadAttempts]
  | succ fuel ih =>
    intro a r
    simp only [downloadAttempts, hfail a, Bool.false_eq_true, if_false]
    rw [ih (a + 1) (f a).2]
    have e1 : a + 1 + fuel = a + (fuel + 1) := by omega
    have e2 : a + 1 + fuel - 1 = a + fuel := by omega
    have e3 : a + (fuel + 1) - 1 = a + fuel := by omega
    rw [e1, e3]
    clear e2
    by_cases hf : fuel = 0
    · subst hf; simp
    · rw [if_neg hf, if_neg (Nat.succ_ne_zero fuel)]

/-- C6 (amended): a download whose every attempt fails is attempted exactly
`args.tries` times and then fails with a structured message containing the
URL, the last failure reason and a generic remediation suggestion; the
attempt count is reported only as a debug line, not in the message. -/
theorem download_retry_exhaustion (env : Env) (st : SGState) (url localpath : String)
    (hfail : ∀ n, (env.download_url url n).1 = false)
    (how : env.args.overwrite_ok = true)
    (hvs : (verify_source env.args st url).res = .ok ())
    (hpos : 0 < env.args.tries) :
    (downloadAttempts (env.download_url url) env.args.tries 0 none).1 = env.args.tries ∧
    (download env st url localpath).1 =
      .error (.safegetFail (get_details_for_failure url env.args.tries
        ((env.download_url url (env.args.tries - 1)).2))) ∧
    url.data <:+: (get_details_for_failure url env.args.tries
        ((env.download_url url (env.args.tries - 1)).2)).data ∧
    (errnoRewrite (pyStr ((env.download_url url (env.args.tries - 1)).2))).data <:+:
      (get_details_for_failure url env.args.tries
        ((env.download_url url (env.args.tries - 1)).2)).data ∧
    ("Suggestions: Check connections or try again later." : String).data <:+:
      (get_details_for_failure url env.args.tries
        ((env.download_url url (env.args.tries - 1)).2)).data := by
  have hda := downloadAttempts_all_fail _ hfail env.args.tries 0 none
  have hfz : env.args.tries ≠ 0 := by omega
  rw [if_neg hfz] at hda
  refine ⟨?_, ?_, ?_, ?_, ?_⟩
  · rw [hda]; simp
  · simp only [download, how, if_true]
    rcases hr : (verify_source env.args st url).res with e | u
    · rw [hr] at hvs; exact absurd hvs (by simp)
    · simp only [hr, hda]
      simp
  · exact ⟨"Unable to safely get ".data,
      (".\n\t" ++ errnoRewrite (pyStr ((env.download_url url (env.args.tries - 1)).2)) ++
        "\n\tSuggestions: Check connections or try again later.").data,
      by simp [get_details_for_failure, String.data_append, List.append_assoc]⟩
  · exact ⟨("Unable to safely get " ++ url ++ ".\n\t").data,
      "\n\tSuggestions: Check connections or try again later.".data,
      by simp [get_details_for_failure, String.data_append, List.append_assoc]⟩
  · exact ⟨("Unable to safely get " ++ url ++ ".\n\t" ++
        errnoRewrite (pyStr ((env.download_url url (env.args.tries - 1)).2)) ++ "\n\t").data,
      [],
      by simp [get_details_for_failure, String.data_append, List.append_assoc]⟩

/-- Witness for C6 (amended): three always-failing attempts exhaust
`--tries 3` and produce the structured failure. -/
theorem download_retry_exhaustion_witness :
    (downloadAttempts (envC6w.download_url "https://mirror.example/pkg")
        envC6w.args.tries 0 none).1 = envC6w.args.tries ∧
    (download envC6w ⟨some "trusted.example"⟩ "https://mirror.example/pkg" tempName).1 =
      .error (.safegetFail (get_details_for_failure "https://mirror.example/pkg"
        envC6w.args.tries
        ((envC6w.download_url "https://mirror.example/pkg" (envC6w.args.tries - 1)).2))) :=
  ⟨(download_retry_exhaustion envC6w ⟨some "trusted.example"⟩ "https://mirror.example/pkg"
      tempName (fun _ => rfl) rfl (by set_option maxRecDepth 10000 in decide)
      (by decide)).1,
    (download_retry_exhaustion envC6w ⟨some "trusted.example"⟩ "https://mirror.example/pkg"
      tempName (fun _ => rfl) rfl (by set_option maxRecDepth 10000 in decide)
      (by decide)).2.1⟩

/-- Counterexample for C6 as stated: the failure message does not include
the attempt count (7 here; `Attempted to download 7 time(s)` is only a
debug print). -/
theorem download_failure_message_cex :
    (download envC6x ⟨some "trusted.example"⟩ "https://mirror.example/pkg" tempName).1 =
      .error (.safegetFail ("Unable to safely get https://mirror.example/pkg.\n\t" ++
        "connection refused\n\tSuggestions: Check connections or try again later.")) ∧
    envC6x.args.tries = 7 ∧
    ¬ (("7" : String).data <:+:
        ("Unable to safely get https://mirror.example/pkg.\n\t" ++
          "connection refused\n\tSuggestions: Check connections or try again later." :
          String).data) := by
  refine ⟨by set_option maxRecDepth 40000 in decide, rfl,
    by set_option maxRecDepth 40000 in decide⟩

/-- Once the trust anchor is set, `verify_source` leaves the state
unchanged (helper for the loop proofs). -/
theorem verify_source_st_of_some (a : Args) (st : SGState) (source : String)
    (h : st.target_host ≠ none) : (verify_source a st source).st = st := by
  unfold verify_source
  split_ifs with h1 h2 <;> try rfl
  rcases hph : parse_host source with e | host
  · rfl
  · simp only [if_neg h]
    split_ifs <;> rfl

/-- Once the trust anchor is set, `download` leaves the state unchanged
(helper for the loop proofs). -/
theorem download_st_of_some (env : Env) (st : SGState) (url localpath : String)
    (h : st.target_host ≠ none) : (download env st url localpath).2 = st := by
  have hvs := verify_source_st_of_some env.args st url h
  unfold download
  split_ifs with h1
  · rcases hres : (verify_source env.args st url).res with e | u
    · simp only [hres]
      exact hvs
    · simp only [hres]
      split_ifs <;> exact hvs
  · rcases hok : (ok_to_write env localpath).1 with e | b
    · simp only [hok]
    · rcases b
      · simp only [hok]
      · simp only [hok]
        rcases hres : (verify_source env.args st url).res with e | u
        · simp only [hres]
          exact hvs
        · simp only [hres]
          split_ifs <;> exact hvs

/-- A successful `parse_hash` never returns an empty algorithm. -/
theorem parse_hash_algo_ne (e a v : String) (hp : parse_hash e = .ok (a, v)) :
    a ≠ "" := by
  simp only [parse_hash] at hp
  split_ifs at hp with hc
  all_goals
    simp only [Except.ok.injEq, Prod.mk.injEq] at hp
    obtain ⟨h1, h2⟩ := hp
    subst h1
    intro ha
    apply hc
    exact Or.inl (by simpa using congrArg String.data ha)

/-- The invariant of the `for hash_arg in args.hash` loop (helper for C3):
with the anchor set and well-formed entries, the state is unchanged, the
loop succeeds iff every entry matches, and the first non-matching entry
(when it is a direct value) produces the hash-mismatch failure naming the
entry's algorithm and the locally computed digest. -/
theorem verify_explicit_hashes_loop_spec (env : Env) (lp : String) (st : SGState)
    (hanchor : st.target_host ≠ none) :
    ∀ (entries : List String) (lastActual : Option String),
      (∀ e ∈ entries, hashEntryGood env st e) →
      ((verify_explicit_hashes_loop env lp entries st lastActual).2 = st ∧
       ((verify_explicit_hashes_loop env lp entries st lastActual).1 = .ok () ↔
         ∀ e ∈ entries, entryMatches env lp e = true) ∧
       (∀ e, entries.find? (fun x => !(entryMatches env lp x)) = some e →
         (∀ a v, parse_hash e = .ok (a, v) → is_url v = false) →
         ∃ a v, parse_hash e = .ok (a, v) ∧
           (verify_explicit_hashes_loop env lp entries st lastActual).1 =
             .error (.safegetFail (env.abspath lp ++
               " expected hash did not match actual hash " ++ a ++ ":" ++
               hash_data env a lp)))) := by
  intro entries
  induction entries with
  | nil =>
    intro lastActual hgood
    refine ⟨rfl, by simp [verify_explicit_hashes_loop], by simp⟩
  | cons harg rest ih =>
    intro lastActual hgood
    obtain ⟨a, v, hp, halgo, hval, hurlc⟩ := hgood harg (List.mem_cons_self _ _)
    have hgrest : ∀ e ∈ rest, hashEntryGood env st e :=
      fun e he => hgood e (List.mem_cons_of_mem _ he)
    cases hu : is_url v with
    | false =>
      have hane : a ≠ "" := parse_hash_algo_ne harg a v hp
      have hvne : v ≠ "" := hval hu
      have hem : entryMatches env lp harg = compare_hashes v (hash_data env a lp) := by
        simp [entryMatches, hp, hu]
      have hstep : verify_explicit_hashes_loop env lp (harg :: rest) st lastActual =
          (if compare_hashes v (hash_data env a lp) then
            verify_explicit_hashes_loop env lp rest st (some (hash_data env a lp))
          else
            (.error (.safegetFail (env.abspath lp ++
              " expected hash did not match actual hash " ++ a ++ ":" ++
              hash_data env a lp)), st)) := by
        simp only [verify_explicit_hashes_loop, hp]
        rw [if_pos halgo]
        simp [hu, hane, hvne]
      cases hm : compare_hashes v (hash_data env a lp) with
      | true =>
        rw [hstep, if_pos (by simp [hm])]
        obtain ⟨ih1, ih2, ih3⟩ := ih (some (hash_data env a lp)) hgrest
        refine ⟨ih1, ?_, ?_⟩
        · rw [ih2]
          simp [List.forall_mem_cons, hem, hm]
        · intro e hfind hvf
          rw [List.find?_cons_of_neg _ (by simp [hem, hm])] at hfind
          exact ih3 e hfind hvf
      | false =>
        rw [hstep, if_neg (by simp [hm])]
        refine ⟨rfl, ?_, ?_⟩
        · simp only [List.forall_mem_cons, hem, hm]
          simp
        · intro e hfind hvf
          rw [List.find?_cons_of_pos _ (by simp [hem, hm])] at hfind
          injection hfind with he
          subst he
          exact ⟨a, v, hp, rfl⟩
    | true =>
      obtain ⟨hvs, hdl, hrf⟩ := hurlc hu
      have hvst : (verify_source env.args st v).st = st :=
        verify_source_st_of_some _ _ _ hanchor
      have hdlst : (download env st v tempName).2 = st :=
        download_st_of_some _ _ _ _ hanchor
      have hdleq : download env st v tempName = (.ok (), st) := by
        have hpe : download env st v tempName =
            ((download env st v tempName).1, (download env st v tempName).2) := rfl
        rw [hpe, hdl, hdlst]
      obtain ⟨content, hc⟩ : ∃ c, env.readfile v = some c :=
        Option.ne_none_iff_exists'.mp hrf
      have hem : entryMatches env lp harg = search_for_hash env lp a content := by
        simp [entryMatches, hp, hu, hc]
      have hstep : verify_explicit_hashes_loop env lp (harg :: rest) st lastActual =
          (if search_for_hash env lp a content then
            verify_explicit_hashes_loop env lp rest st lastActual
          else
            match lastActual with
            | some actual =>
              (.error (.safegetFail (env.abspath lp ++
                " expected hash did not match actual hash " ++ a ++ ":" ++ actual)), st)
            | none => (.error (.nameError "actual_hash"), st)) := by
        simp only [verify_explicit_hashes_loop, hp]
        rw [if_pos halgo]
        simp only [hu, if_true, hvs, hvst, hdleq, hc]
      cases hm : search_for_hash env lp a content with
      | true =>
        rw [hstep, if_pos (by simp [hm])]
        obtain ⟨ih1, ih2, ih3⟩ := ih lastActual hgrest
        refine ⟨ih1, ?_, ?_⟩
        · rw [ih2]
          simp [List.forall_mem_cons, hem, hm]
        · intro e hfind hvf
          rw [List.find?_cons_of_neg _ (by simp [hem, hm])] at hfind
          exact ih3 e hfind hvf
      | false =>
        have hnall : ¬ (∀ e ∈ harg :: rest, entryMatches env lp e = true) := by
          intro hall
          have hh := hall harg (List.mem_cons_self _ _)
          rw [hem, hm] at hh
          exact Bool.false_ne_true hh
        rw [hstep, if_neg (by simp [hm])]
        refine ⟨?_, ?_, ?_⟩
        · cases lastActual <;> rfl
        · refine iff_of_false ?_ hnall
          cases lastActual <;> simp
        · intro e hfind hvf
          rw [List.find?_cons_of_pos _ (by simp [hem, hm])] at hfind
          injection hfind with he
          subst he
          exact absurd (hvf a v hp) (by simp [hu])

/-- C3 (amended): explicit `--hash` entries have AND semantics — the tier
succeeds iff every entry independently matches (direct values by
case-insensitive, space-stripped equality; URL entries by substring
occurrence of the digest in the fetched content) — and the first
non-matching direct-value entry aborts the run with a hash-mismatch error
naming the offending algorithm and the locally computed digest (not both
digests). -/
theorem verify_explicit_hashes_and_spec (env : Env) (st : SGState) (lp : String)
    (hanchor : st.target_host ≠ none)
    (hgood : ∀ e ∈ env.args.hash, hashEntryGood env st e) :
    ((verify_explicit_hashes env st lp).1 = .ok () ↔
      ∀ e ∈ env.args.hash, entryMatches env lp e = true) ∧
    (∀ e, env.args.hash.find? (fun x => !(entryMatches env lp x)) = some e →
      (∀ a v, parse_hash e = .ok (a, v) → is_url v = false) →
      ∃ a v, parse_hash e = .ok (a, v) ∧
        (verify_explicit_hashes env st lp).1 =
          .error (.safegetFail (env.abspath lp ++
            " expected hash did not match actual hash " ++ a ++ ":" ++
            hash_data env a lp))) := by
  unfold verify_explicit_hashes
  by_cases hne : env.args.hash = []
  · rw [if_neg (by simp [hne])]
    exact ⟨by simp [hne], by simp [hne]⟩
  · rw [if_pos hne]
    obtain ⟨h1, h2, h3⟩ :=
      verify_explicit_hashes_loop_spec env lp st hanchor env.args.hash none hgood
    exact ⟨h2, h3⟩

/-- Counterexample for C3 as stated: the hash-mismatch error message names
the algorithm and the locally computed digest `aaaa` but not the expected
digest `bbbb` — so it does not name "both digests". -/
theorem verify_explicit_hashes_message_cex :
    (verify_explicit_hashes envC3 ⟨some "h"⟩ "app.bin").1 =
      .error (.safegetFail
        "app.bin expected hash did not match actual hash sha256:aaaa") ∧
    ¬ (("bbbb" : String).data <:+:
        ("app.bin expected hash did not match actual hash sha256:aaaa" : String).data) := by
  exact ⟨by decide, by decide⟩

/-- Witness for C3 (amended): with a matching digest the tier succeeds; with
`envC3`'s mismatching entry the failure names the algorithm and the actual
digest. -/
theorem verify_explicit_hashes_and_spec_witness :
    (verify_explicit_hashes { envC3 with hexdigest := fun _ _ => "BBBB" }
        ⟨some "h"⟩ "app.bin").1 = .ok () ∧
    (∃ a v, parse_hash "SHA256:bbbb" = .ok (a, v) ∧
      (verify_explicit_hashes envC3 ⟨some "h"⟩ "app.bin").1 =
        .error (.safegetFail (envC3.abspath "app.bin" ++
          " expected hash did not match actual hash " ++ a ++ ":" ++
          hash_data envC3 a "app.bin"))) := by
  constructor
  · refine ((verify_explicit_hashes_and_spec
      { envC3 with hexdigest := fun _ _ => "BBBB" } ⟨some "h"⟩ "app.bin"
      (by simp) ?_).1).mpr (by decide)
    intro e he
    rw [show ({ envC3 with hexdigest := fun _ _ => "BBBB" } : Env).args.hash =
      ["SHA256:bbbb"] from rfl] at he
    rcases List.mem_singleton.mp he with rfl
    exact ⟨"sha256", "bbbb", by decide, by decide, fun _ => by decide,
      fun hcontra => absurd hcontra (by decide)⟩
  · refine (verify_explicit_hashes_and_spec envC3 ⟨some "h"⟩ "app.bin"
      (by simp) ?_).2 "SHA256:bbbb" (by decide) ?_
    · intro e he
      rw [show envC3.args.hash = ["SHA256:bbbb"] from rfl] at he
      rcases List.mem_singleton.mp he with rfl
      exact ⟨"sha256", "bbbb", by decide, by decide, fun _ => by decide,
        fun hcontra => absurd hcontra (by decide)⟩
    · intro a v hpv
      have h0 : parse_hash "SHA256:bbbb" = .ok ("sha256", "bbbb") := by decide
      rw [h0] at hpv
      simp only [Except.ok.injEq, Prod.mk.injEq] at hpv
      rw [← hpv.2]
      decide

/-- Inversion for `keepVerified` (helper for C7). -/
theorem keepVerified_inv (env : Env) (c t : List Char)
    (h : keepVerified env c = some t) :
    clean_gpg_data c = .ok (true, t) ∧ env.gpg_verify_signedmsg t = true := by
  rcases hc : clean_gpg_data c with e | ⟨b, t2⟩
  · simp [keepVerified, hc] at h
  · rcases b
    · simp [keepVerified, hc] at h
    · simp only [keepVerified, hc] at h
      by_cases hg : env.gpg_verify_signedmsg t2 = true
      · rw [if_pos hg] at h
        injection h with h2
        subst h2
        exact ⟨rfl, hg⟩
      · rw [if_neg hg] at h
        exact absurd h (by simp)

/-- The signed-message artifact loop keeps exactly the cleaned artifacts
whose signature verifies (helper for C7). -/
theorem verify_signed_messages_loop_spec (env : Env) :
    ∀ paths : List (List Char),
      (∀ c ∈ paths, (clean_gpg_data c).isOk = true) →
      verify_signed_messages_loop env paths = .ok (paths.filterMap (keepVerified env)) := by
  intro paths
  induction paths with
  | nil => intro h; simp [verify_signed_messages_loop]
  | cons c rest ih =>
    intro h
    have hc := h c (List.mem_cons_self _ _)
    have hrest := ih (fun x hx => h x (List.mem_cons_of_mem _ hx))
    rcases hcc : clean_gpg_data c with e | ⟨b, t⟩
    · rw [hcc] at hc; simp [Except.isOk, Except.toBool] at hc
    · rcases b
      · simp only [verify_signed_messages_loop, hcc, hrest, List.filterMap_cons,
          keepVerified]
      · simp only [verify_signed_messages_loop, hcc, hrest, List.filterMap_cons,
          keepVerified]
        by_cases hg : env.gpg_verify_signedmsg t = true
        · simp [hg]
        · simp only [Bool.not_eq_true] at hg
          simp [hg]

/-- `save_patterns` on a single local source that exists, decodes and
contains at least one pattern match (helper for C7). -/
theorem save_patterns_local (env : Env) (st : SGState) (p source : String)
    (content : List Char)
    (hurl : is_url source = false) (hex : env.path_exists source = true)
    (hrf : env.readfile source = some content)
    (hnm : env.re_findall p content ≠ []) :
    save_patterns env st p [source] = (.ok (env.re_findall p content), st) := by
  unfold save_patterns save_patterns_loop
  rw [hurl]
  simp only [Bool.false_eq_true, if_false, hex, hrf]
  rw [if_neg (by simp), if_neg hnm]
  simp [save_patterns_loop]

/-- `verify_signed_messages` on a well-formed local source returns exactly
the verified cleaned messages and leaves the state unchanged (helper for
C7). -/
theorem verify_signed_messages_spec (env : Env) (st : SGState) (source : String)
    (content : List Char)
    (hurl : is_url source = false) (hex : env.path_exists source = true)
    (hrf : env.readfile source = some content)
    (hnm : env.re_findall SIGNED_MESSAGE_PATTERN content ≠ [])
    (hcl : ∀ c ∈ env.re_findall SIGNED_MESSAGE_PATTERN content,
      (clean_gpg_data c).isOk = true) :
    verify_signed_messages env st source = (.ok (verifiedMsgs env source), st) := by
  unfold verify_signed_messages
  rw [save_patterns_local env st _ source content hurl hex hrf hnm]
  dsimp only
  rw [verify_signed_messages_loop_spec env _ hcl]
  unfold verifiedMsgs extractedMsgs
  rw [hrf]
  rfl

/-- A cleanable artifact makes `check_signed_hash_file` not raise (helper
for C7). -/
theorem check_signed_hash_file_isOk (env : Env) (lp algo : String) (c : List Char)
    (h : (clean_gpg_data c).isOk = true) :
    (check_signed_hash_file env lp c algo).isOk = true := by
  unfold check_signed_hash_file
  rcases hc : clean_gpg_data c with e | ⟨b, t⟩
  · rw [hc] at h; simp [Except.isOk, Except.toBool] at h
  · rcases b <;> simp [Except.isOk, Except.toBool]

/-- The inner signed-hash file loop computes the disjunction of the
per-file matches (helper for C7). -/
theorem signed_hash_files_loop_spec (env : Env) (lp algo : String) :
    ∀ (files : List (List Char)) (m : Bool),
      (∀ c ∈ files, (check_signed_hash_file env lp c algo).isOk = true) →
      signed_hash_files_loop env lp algo files m =
        .ok (m || files.any (msgYieldsMatch env lp algo)) := by
  intro files
  induction files with
  | nil => intro m h; simp [signed_hash_files_loop]
  | cons c rest ih =>
    intro m h
    have hc := h c (List.mem_cons_self _ _)
    have hrest := fun m2 => ih m2 (fun x hx => h x (List.mem_cons_of_mem _ hx))
    rcases m
    · simp only [signed_hash_files_loop, Bool.false_eq_true, if_false]
      rcases hchk : check_signed_hash_file env lp c algo with e | b
      · rw [hchk] at hc; simp [Except.isOk, Except.toBool] at hc
      · dsimp only
        rw [hrest b]
        have hmy : msgYieldsMatch env lp algo c = b := by
          simp [msgYieldsMatch, hchk]
        simp [hmy]
    · simp only [signed_hash_files_loop, if_true]
      rw [hrest true]
      simp

/-- The outer `--signedhash` loop computes the disjunction of the per-source
matches and leaves the state unchanged (helper for C7). -/
theorem verify_signed_hashes_loop_spec (env : Env) (lp : String) :
    ∀ (sargs : List String) (st : SGState) (m : Bool),
      (∀ arg ∈ sargs, signedHashArgGood env arg) →
      verify_signed_hashes_loop env lp sargs st m =
        (.ok (m || sargs.any (argYieldsMatch env lp)), st) := by
  intro sargs
  induction sargs with
  | nil => intro st m h; simp [verify_signed_hashes_loop]
  | cons arg rest ih =>
    intro st m h
    obtain ⟨a, src, hp, halgo, hurl, hex, content, hrf, hnm, hcl⟩ :=
      h arg (List.mem_cons_self _ _)
    have hrest := fun st2 m2 => ih st2 m2 (fun x hx => h x (List.mem_cons_of_mem _ hx))
    have hcl1 : ∀ c ∈ env.re_findall SIGNED_MESSAGE_PATTERN content,
        (clean_gpg_data c).isOk = true := fun c hc => (hcl c hc).1
    have hvm := verify_signed_messages_spec env st src content hurl hex hrf hnm hcl1
    have hchk : ∀ c ∈ verifiedMsgs env src,
        (check_signed_hash_file env lp c a).isOk = true := by
      intro t ht
      obtain ⟨c, hcmem, hkeep⟩ := List.mem_filterMap.mp ht
      obtain ⟨hcclean, _⟩ := keepVerified_inv env c t hkeep
      have hdc := (hcl c (by simpa [extractedMsgs, hrf] using hcmem)).2
      unfold doubleCleanOkB at hdc
      rw [hcclean] at hdc
      exact check_signed_hash_file_isOk env lp a t hdc
    have hfl := signed_hash_files_loop_spec env lp a (verifiedMsgs env src) m hchk
    have hay : argYieldsMatch env lp arg =
        (verifiedMsgs env src).any (msgYieldsMatch env lp a) := by
      simp [argYieldsMatch, hp, sourceYieldsMatch]
    simp only [verify_signed_hashes_loop, hp]
    rw [if_pos halgo, hvm]
    simp only [hfl]
    rw [hrest st (m || (verifiedMsgs env src).any (msgYieldsMatch env lp a))]
    simp [hay, Bool.or_assoc]

/-- C7: for every `--signedhash` source the target's digest (computed with
the algorithm named alongside the source) is searched as a raw substring
only within content whose enclosing PGP signed message already verified
(`argYieldsMatch` filters by `gpg_verify_signedmsg` before searching); one
matching occurrence across all listed sources makes the tier succeed, and
if no listed source yields a match the run fails. -/
theorem verify_signed_hashes_policy (env : Env) (st : SGState) (lp : String)
    (hne : env.args.signedhash ≠ [])
    (hgood : ∀ arg ∈ env.args.signedhash, signedHashArgGood env arg) :
    ((verify_signed_hashes env st lp).1 = .ok () ↔
      ∃ arg ∈ env.args.signedhash, argYieldsMatch env lp arg = true) ∧
    ((∀ arg ∈ env.args.signedhash, argYieldsMatch env lp arg = false) →
      (verify_signed_hashes env st lp).1 =
        .error (.safegetFail ("no matching signed hash found in " ++
          pyStrList env.args.signedhash))) := by
  unfold verify_signed_hashes
  rw [if_pos hne]
  rw [verify_signed_hashes_loop_spec env lp env.args.signedhash st false hgood]
  dsimp only
  cases hany : env.args.signedhash.any (argYieldsMatch env lp)
  · simp only [Bool.false_or, hany, Bool.false_eq_true, if_false]
    refine ⟨iff_of_false (by simp) ?_, fun _ => by simp⟩
    intro hex
    obtain ⟨arg, hmem, hm⟩ := hex
    have := List.any_eq_true.mpr ⟨arg, hmem, hm⟩
    rw [hany] at this
    exact Bool.false_ne_true this
  · simp only [Bool.false_or, hany, if_true]
    refine ⟨iff_of_true trivial ?_, ?_⟩
    · obtain ⟨arg, hmem, hm⟩ := List.any_eq_true.mp hany
      exact ⟨arg, hmem, hm⟩
    · intro hall
      obtain ⟨arg, hmem, hm⟩ := List.any_eq_true.mp hany
      rw [hall arg hmem] at hm
      exact (Bool.false_ne_true hm).elim

/-- Witness for C7: a source whose one signed message verifies and contains
the digest makes the tier succeed. -/
theorem verify_signed_hashes_policy_witness :
    envC7.args.signedhash ≠ [] ∧
    (verify_signed_hashes envC7 ⟨some "app.bin"⟩ "app.bin").1 = .ok () := by
  have hgood : ∀ arg ∈ envC7.args.signedhash, signedHashArgGood envC7 arg := by
    intro arg har
    rw [show envC7.args.signedhash = ["SHA256:hashes.txt"] from rfl] at har
    rcases List.mem_singleton.mp har with rfl
    refine ⟨"sha256", "hashes.txt", by decide, by decide, by decide, by decide,
      List.replicate 100 'x' ++ ['a', 'a', 'b', 'b'],
      by set_option maxRecDepth 40000 in decide,
      by set_option maxRecDepth 40000 in decide, ?_⟩
    intro c hcm
    rw [show envC7.re_findall SIGNED_MESSAGE_PATTERN
        (List.replicate 100 'x' ++ ['a', 'a', 'b', 'b']) =
        [List.replicate 100 'x' ++ ['a', 'a', 'b', 'b']] from rfl] at hcm
    rcases List.mem_singleton.mp hcm with rfl
    exact ⟨by set_option maxRecDepth 100000 in decide,
      by set_option maxRecDepth 100000 in decide⟩
  refine ⟨by decide, ?_⟩
  exact ((verify_signed_hashes_policy envC7 ⟨some "app.bin"⟩ "app.bin"
      (by decide) hgood).1).mpr
    ⟨"SHA256:hashes.txt", by decide, by set_option maxRecDepth 200000 in decide⟩
